import Mathlib

/-!
Verification of the woopy exchange-client library (src/woopy.py and its copy
src/src/woopy/__init__.py) against its natural-language specification.

The embedding works at the level of decoded JSON values: the wire encodes
outbound frames with json.dumps and decodes inbound frames with json.loads,
so frames are modelled as values of the inductive type J below.  The signer
is embedded concretely, including a full HMAC-SHA256 over byte lists
(naturals below 256) with 32-bit words represented as naturals reduced
modulo 2 ^ 32, matching the hashlib/hmac library calls in the source.  The
stateful listener loop is embedded as a trace function: one Session records
what one established transport connection delivered, and the trace lists the
externally visible events (transport connect, outbound frame, enqueue to the
merge queue, raised error) in program order.
-/

namespace Woopy

/-- Decoded JSON values, the payload type of every frame in the model. -/
inductive J where
  | null : J
  | bool (b : Bool) : J
  | num (n : Int) : J
  | str (s : String) : J
  | arr (elems : List J) : J
  | obj (fields : List (String × J)) : J

/-- Field lookup in a decoded JSON object, as dict.get does in the source
(objects produced by json.loads have unique keys, so first match suffices). -/
def jLookup : List (String × J) → String → Option J
  | [], _ => none
  | (k, v) :: rest, key => if k == key then some v else jLookup rest key

/-- Whether pre is a prefix of l, over characters. -/
def listHasPre : List Char → List Char → Bool
  | [], _ => true
  | _ :: _, [] => false
  | p :: ps, x :: xs => p == x && listHasPre ps xs

/-- Whether needle occurs as a contiguous sublist of hay. -/
def subIn (needle : List Char) : List Char → Bool
  | [] => listHasPre needle []
  | x :: xs => listHasPre needle (x :: xs) || subIn needle xs

/-- The Python membership test needle in url on strings. -/
def strIn (needle url : String) : Bool := subIn needle.data url.data

/-- The decimal digit character for d below 10. -/
def digitChar (d : Nat) : Char := Char.ofNat (48 + d)

/-- Decimal rendering with explicit fuel, so that it is structurally
recursive and reduces inside the kernel. -/
def natCharsAux : Nat → Nat → List Char
  | 0, _ => []
  | fuel + 1, n => if n < 10 then [digitChar n] else natCharsAux fuel (n / 10) ++ [digitChar (n % 10)]

/-- Decimal rendering of a natural number, as the str builtin renders a
nonnegative Python int. -/
def natStr (n : Nat) : String := ⟨natCharsAux (n + 1) n⟩

/-- The join method of Python strings: interleave a separator. -/
def joinSep (sep : String) : List String → String
  | [] => ""
  | [s] => s
  | s :: rest => s ++ sep ++ joinSep sep rest

/-- UTF-8 encoding of one character, as bytes-as-naturals. -/
def charUtf8 (c : Char) : List Nat :=
  let n := c.toNat
  if n < 128 then [n]
  else if n < 2048 then [192 + n / 64, 128 + n % 64]
  else if n < 65536 then [224 + n / 4096, 128 + n / 64 % 64, 128 + n % 64]
  else [240 + n / 262144, 128 + n / 4096 % 64, 128 + n / 64 % 64, 128 + n % 64]

/-- UTF-8 encoding of a string, as the bytes builtin with encoding utf-8. -/
def utf8Bytes (s : String) : List Nat := s.data.foldr (fun c acc => charUtf8 c ++ acc) []

/-- Reduction modulo 2 ^ 32, the word size of SHA-256. -/
def w32 (n : Nat) : Nat := n % 4294967296

/-- Right rotation of a 32-bit word. -/
def rotr (n x : Nat) : Nat := w32 ((x >>> n) ||| (x <<< (32 - n)))

/-- The big sigma-0 function of SHA-256. -/
def bigSigma0 (x : Nat) : Nat := rotr 2 x ^^^ rotr 13 x ^^^ rotr 22 x

/-- The big sigma-1 function of SHA-256. -/
def bigSigma1 (x : Nat) : Nat := rotr 6 x ^^^ rotr 11 x ^^^ rotr 25 x

/-- The small sigma-0 function of SHA-256. -/
def smallSigma0 (x : Nat) : Nat := rotr 7 x ^^^ rotr 18 x ^^^ (x >>> 3)

/-- The small sigma-1 function of SHA-256. -/
def smallSigma1 (x : Nat) : Nat := rotr 17 x ^^^ rotr 19 x ^^^ (x >>> 10)

/-- The choice function of SHA-256, with 32-bit complement as xor with the
all-ones mask. -/
def chFn (e f g : Nat) : Nat := (e &&& f) ^^^ ((e ^^^ 4294967295) &&& g)

/-- The majority function of SHA-256. -/
def majFn (a b c : Nat) : Nat := (a &&& b) ^^^ (a &&& c) ^^^ (b &&& c)

/-- The 64 round constants of SHA-256. -/
def K256 : List Nat :=
  [1116352408, 1899447441, 3049323471, 3921009573, 961987163, 1508970993, 2453635748, 2870763221,
   3624381080, 310598401, 607225278, 1426881987, 1925078388, 2162078206, 2614888103, 3248222580,
   3835390401, 4022224774, 264347078, 604807628, 770255983, 1249150122, 1555081692, 1996064986,
   2554220882, 2821834349, 2952996808, 3210313671, 3336571891, 3584528711, 113926993, 338241895,
   666307205, 773529912, 1294757372, 1396182291, 1695183700, 1986661051, 2177026350, 2456956037,
   2730485921, 2820302411, 3259730800, 3345764771, 3516065817, 3600352804, 4094571909, 275423344,
   430227734, 506948616, 659060556, 883997877, 958139571, 1322822218, 1537002063, 1747873779,
   1955562222, 2024104815, 2227730452, 2361852424, 2428436474, 2756734187, 3204031479, 3329325298]

/-- The initial hash state of SHA-256. -/
def H0 : List Nat :=
  [1779033703, 3144134277, 1013904242, 2773480762, 1359893119, 2600822924, 528734635, 1541459225]

/-- Big-endian 32-bit words from a byte list, four bytes per word. -/
def toWords : List Nat → List Nat
  | a :: b :: c :: d :: rest => (((a * 256 + b) * 256 + c) * 256 + d) :: toWords rest
  | _ => []

/-- Message-schedule extension: the accumulator holds the words produced so
far, most recent first, and each step prepends one new word. -/
def scheduleAux : Nat → List Nat → List Nat
  | 0, acc => acc
  | n + 1, acc =>
      scheduleAux n
        (w32 (smallSigma1 (acc.getD 1 0) + acc.getD 6 0 + smallSigma0 (acc.getD 14 0) + acc.getD 15 0) :: acc)

/-- One SHA-256 round: the state is the eight working variables. -/
def roundStep (st : List Nat) (kw : Nat × Nat) : List Nat :=
  match st with
  | [a, b, c, d, e, f, g, hh] =>
    let t1 := w32 (hh + bigSigma1 e + chFn e f g + kw.1 + kw.2)
    let t2 := w32 (bigSigma0 a + majFn a b c)
    [w32 (t1 + t2), a, b, c, w32 (d + t1), e, f, g]
  | other => other

/-- Compression of one 64-byte block into the running hash state. -/
def compressBlock (hs : List Nat) (block : List Nat) : List Nat :=
  let ws := (scheduleAux 48 (toWords block).reverse).reverse
  let st := (K256.zip ws).foldl roundStep hs
  List.zipWith (fun x y => w32 (x + y)) hs st

/-- Splitting into 64-byte blocks, with fuel for structural recursion. -/
def chunksAux : Nat → List Nat → List (List Nat)
  | 0, _ => []
  | _ + 1, [] => []
  | fuel + 1, l => l.take 64 :: chunksAux fuel (l.drop 64)

/-- The eight-byte big-endian rendering of the bit length in SHA-256 padding. -/
def beBytes8 (n : Nat) : List Nat :=
  [n / 72057594037927936 % 256, n / 281474976710656 % 256, n / 1099511627776 % 256,
   n / 4294967296 % 256, n / 16777216 % 256, n / 65536 % 256, n / 256 % 256, n % 256]

/-- The four big-endian bytes of a 32-bit word. -/
def word4 (w : Nat) : List Nat := [w / 16777216 % 256, w / 65536 % 256, w / 256 % 256, w % 256]

/-- SHA-256 of a byte list, returning the 32 digest bytes. -/
def sha256 (msg : List Nat) : List Nat :=
  let padded := msg ++ 128 :: List.replicate ((119 - msg.length % 64) % 64) 0 ++ beBytes8 (8 * msg.length)
  let blocks := chunksAux padded.length padded
  (blocks.foldl compressBlock H0).foldr (fun w acc => word4 w ++ acc) []

/-- HMAC-SHA256 with a 64-byte block size, as the hmac library computes it. -/
def hmacSha256 (key msg : List Nat) : List Nat :=
  let keyAdj := if 64 < key.length then sha256 key else key
  let keyPadded := keyAdj ++ List.replicate (64 - keyAdj.length) 0
  let ipadKey := keyPadded.map (fun b => b ^^^ 54)
  let opadKey := keyPadded.map (fun b => b ^^^ 92)
  sha256 (opadKey ++ sha256 (ipadKey ++ msg))

/-- A lowercase hexadecimal digit character for n below 16. -/
def hexDigitChar (n : Nat) : Char := if n < 10 then Char.ofNat (48 + n) else Char.ofNat (87 + n)

/-- The two lowercase hexadecimal characters of one byte. -/
def byteHex (b : Nat) : List Char := [hexDigitChar (b / 16), hexDigitChar (b % 16)]

/-- The hexdigest method: lowercase hexadecimal rendering of digest bytes. -/
def hexDigest (bytes : List Nat) : String := ⟨bytes.foldr (fun b acc => byteHex b ++ acc) []⟩

/-- The upper method of Python strings, character by character. -/
def pyUpper (s : String) : String := ⟨s.data.map Char.toUpper⟩

/-- The canonical message string of the signer: the query string
key1=value1&key2=value2... over the parameters in the given order, a pipe,
then the decimal timestamp.  This is the msg variable of the source
function, with the query-string construction inlined. -/
def signMsg (params : List (String × String)) (time_ms : Nat) : String :=
  joinSep "&" (params.map (fun kv => kv.1 ++ "=" ++ kv.2)) ++ "|" ++ natStr time_ms

/-- The hex-and-uppercase step of the signer: HMAC-SHA256 the UTF-8 bytes of
the message keyed by the UTF-8 bytes of the secret, render the digest with
hexdigest, then apply upper. -/
def sigOfMsg (woo_secret msg : String) : String :=
  pyUpper (hexDigest (hmacSha256 (utf8Bytes woo_secret) (utf8Bytes msg)))

/-- The signer, embedding the source function that builds the canonical
string and returns the uppercase hexadecimal HMAC-SHA256 digest.  Parameter
mappings are association lists in insertion order, as Python keyword
dictionaries are. -/
def _get_signature (time_ms : Nat) (woo_secret : String) (sorted_params : List (String × String)) : String :=
  sigOfMsg woo_secret (signMsg sorted_params time_ms)

/-- The ordering used by the sorted builtin on pairs of strings: compare
first components, break ties on the second component. -/
def pairRel (a b : String × String) : Prop := a.1 < b.1 ∨ (a.1 = b.1 ∧ a.2 ≤ b.2)

instance : DecidableRel pairRel := fun a b => by
  unfold pairRel
  infer_instance

/-- The sorted builtin applied to the items of a parameter dictionary. -/
def sortPairs (params : List (String × String)) : List (String × String) :=
  List.insertionSort pairRel params

instance : IsTotal (String × String) pairRel := by
  constructor
  intro a b
  rcases lt_trichotomy a.1 b.1 with h | h | h
  · exact Or.inl (Or.inl h)
  · rcases le_total a.2 b.2 with h2 | h2
    · exact Or.inl (Or.inr ⟨h, h2⟩)
    · exact Or.inr (Or.inr ⟨h.symm, h2⟩)
  · exact Or.inr (Or.inl h)

instance : IsTrans (String × String) pairRel := by
  constructor
  intro a b c hab hbc
  rcases hab with h1 | ⟨h1, h1v⟩ <;> rcases hbc with h2 | ⟨h2, h2v⟩
  · exact Or.inl (h1.trans h2)
  · exact Or.inl (h2 ▸ h1)
  · exact Or.inl (h1 ▸ h2)
  · exact Or.inr ⟨h1.trans h2, h1v.trans h2v⟩

instance : IsAntisymm (String × String) pairRel := by
  constructor
  intro a b hab hba
  rcases hab with h1 | ⟨h1, h1v⟩ <;> rcases hba with h2 | ⟨h2, h2v⟩
  · exact absurd (h1.trans h2) (lt_irrefl a.1)
  · exact absurd h1 (h2 ▸ lt_irrefl b.1)
  · exact absurd h2 (h1 ▸ lt_irrefl a.1)
  · exact Prod.ext h1 (le_antisymm h1v h2v)

/-- The REST header builder: sort the parameters, take the current timestamp
(a parameter of the embedding), and return the four headers of the source.
The timestamp used in the x-api-signature value and in the x-api-timestamp
value is the same single time_ms binding, as in the source. -/
def _get_headers (woo_key woo_secret : String) (params : List (String × String)) (time_ms : Nat) :
    List (String × String) :=
  let sorted_params := sortPairs params
  [("Content-Type", "application/x-www-form-urlencoded"),
   ("x-api-key", woo_key),
   ("x-api-signature", _get_signature time_ms woo_secret sorted_params),
   ("x-api-timestamp", natStr time_ms)]

/-- The WebSocket authentication frame of the source, at the decoded JSON
level (the source sends json.dumps of this object).  The signature is
computed with zero parameters and the same time_ms binding feeds both the
sign field and the timestamp field. -/
def _get_auth_message (woo_key woo_secret : String) (time_ms : Nat) : J :=
  J.obj [("event", J.str "auth"),
         ("params", J.obj [("apikey", J.str woo_key),
                           ("sign", J.str (_get_signature time_ms woo_secret [])),
                           ("timestamp", J.str (natStr time_ms))])]

/-- The error taxonomy of the embedding.  The source raises ValueError with
a message naming the missing credential; the specification calls both cases
MissingCredential. -/
inductive PErr where
  | missingKey : PErr
  | missingSecret : PErr
  | connectionClosed : PErr
  | unexpected : PErr
deriving DecidableEq

/-- The header dispatcher of the source: empty headers for URLs containing
the substring public, otherwise credential presence is checked (key first,
then secret) before the signed headers are built. -/
def _headers (url : String) (woo_key woo_secret : Option String) (params : List (String × String))
    (time_ms : Nat) : Except PErr (List (String × String)) :=
  if strIn "public" url then Except.ok []
  else
    match woo_key with
    | none => Except.error PErr.missingKey
    | some k =>
      match woo_secret with
      | none => Except.error PErr.missingSecret
      | some s => Except.ok (_get_headers k s params time_ms)

/-- The HTTP method of a REST helper. -/
inductive Method where
  | get : Method
  | post : Method
  | delete : Method
deriving DecidableEq

/-- An outbound REST request: the requests library call the source makes,
with its query parameters and headers. -/
structure Request where
  method : Method
  url : String
  params : List (String × String)
  hdrs : List (String × String)
deriving DecidableEq

/-- A REST helper call (get, post or delete are identical up to the method):
the headers are computed first, and when that raises no request is sent. -/
def restCall (m : Method) (url : String) (woo_key woo_secret : Option String)
    (params : List (String × String)) (time_ms : Nat) : Except PErr Request :=
  match _headers url woo_key woo_secret params time_ms with
  | Except.error e => Except.error e
  | Except.ok h => Except.ok ⟨m, url, params, h⟩

/-- An endpoint as configured by the caller: URL, topic iteration order, and
the optional credentials passed to the listener. -/
structure EndpointSpec where
  url : String
  topics : List String
  key : Option String
  secret : Option String

/-- What one established transport connection delivered: the handshake
timestamp, the inbound frames in arrival order (already decoded), and
whether the connection ended with the ConnectionClosed condition (false
means some other unexpected exception ended it). -/
structure Session where
  timeMs : Nat
  frames : List J
  closed : Bool

/-- Externally visible events of the listener, in program order. -/
inductive Ev where
  | connect (url : String) : Ev
  | send (frame : J) : Ev
  | put (obj : J) : Ev
  | err (e : PErr) : Ev

/-- Whether an event is an enqueue onto the merge queue. -/
def isPutEv : Ev → Bool
  | Ev.put _ => true
  | _ => false

/-- Whether an event sends a frame whose first field marks it as the
authentication frame. -/
def isAuthSend : Ev → Bool
  | Ev.send (J.obj (("event", J.str "auth") :: _)) => true
  | _ => false

/-- Whether an event opens a transport connection. -/
def isConnectEv : Ev → Bool
  | Ev.connect _ => true
  | _ => false

/-- Whether an event raises an error. -/
def isErrEv : Ev → Bool
  | Ev.err _ => true
  | _ => false

/-- The ping interception test of the receive loop: a decoded JSON mapping
whose event field equals the string ping. -/
def isPing (v : J) : Bool :=
  match v with
  | J.obj fields =>
    match jLookup fields "event" with
    | some (J.str s) => s == "ping"
    | _ => false
  | _ => false

/-- The pong reply frame. -/
def pongFrame : J := J.obj [("event", J.str "pong")]

/-- The subscription frame for one topic. -/
def subscribeFrame (topic : String) : J := J.obj [("topic", J.str topic), ("event", J.str "subscribe")]

/-- The receive loop of the listener: each inbound frame is either
intercepted (a ping, answered with exactly one pong and never enqueued) or
enqueued unchanged onto the merge queue. -/
def recvTrace : List J → List Ev
  | [] => []
  | obj :: rest => (if isPing obj then [Ev.send pongFrame] else [Ev.put obj]) ++ recvTrace rest

/-- The subscription sends of the handshake, one frame per topic in
iteration order. -/
def subSends (topics : List String) : List Ev := topics.map (fun tp => Ev.send (subscribeFrame tp))

/-- The terminating event of a session. -/
def termEv (sess : Session) : PErr := if sess.closed then PErr.connectionClosed else PErr.unexpected

/-- One iteration of the async-for connection loop of the listener: the
transport connection is established first (the async iterator connects
before the loop body runs), then the body checks credentials when the URL
contains the substring private, sends the authentication frame, sends one
subscription frame per topic, and services the receive loop until the
session ends with an error. -/
def connAttempt (spec : EndpointSpec) (sess : Session) : List Ev :=
  Ev.connect spec.url ::
    (if strIn "private" spec.url then
      match spec.key with
      | none => [Ev.err PErr.missingKey]
      | some k =>
        match spec.secret with
        | none => [Ev.err PErr.missingSecret]
        | some s =>
          Ev.send (_get_auth_message k s sess.timeMs) ::
            (subSends spec.topics ++ recvTrace sess.frames ++ [Ev.err (termEv sess)])
    else subSends spec.topics ++ recvTrace sess.frames ++ [Ev.err (termEv sess)])

/-- The listener retry loop over a finite prefix of its sessions: every
error is logged and the loop reconnects, so the trace is the concatenation
of the connection attempts. -/
def listenerTrace (spec : EndpointSpec) : List Session → List Ev
  | [] => []
  | sess :: rest => connAttempt spec sess ++ listenerTrace spec rest

/-- Whether an event sends a frame. -/
def isSendEv : Ev → Bool
  | Ev.send _ => true
  | _ => false

/-- Field access on a decoded JSON value, none when it is not an object. -/
def jField (v : J) (key : String) : Option J :=
  match v with
  | J.obj fields => jLookup fields key
  | _ => none

/-- Modelled from the spec: the WebSocket auth frame shape of section 6,
an object with event auth and params carrying apikey, sign and timestamp. -/
def specAuthFrame (apikey sign timestamp : String) : J :=
  J.obj [("event", J.str "auth"),
         ("params", J.obj [("apikey", J.str apikey),
                           ("sign", J.str sign),
                           ("timestamp", J.str timestamp)])]

/-- Modelled from the spec: the canonical string of section 4.1, the
parameter part key1=value1&key2=value2... (the empty string when there are
no parameters) followed by a pipe and the millisecond timestamp. -/
def specCanonicalString (params : List (String × String)) (time_ms : Nat) : String :=
  (if params.isEmpty then "" else joinSep "&" (params.map (fun kv => kv.1 ++ "=" ++ kv.2)))
    ++ "|" ++ natStr time_ms

/-- Whether every character of a string is an uppercase hexadecimal digit. -/
def allUpperHex (s : String) : Bool :=
  s.data.all (fun c => ("0123456789ABCDEF".data).contains c)

/-- The handshake frames of one connection attempt when both credentials are
present: the auth frame first when the URL contains the substring private,
then one subscription frame per topic. -/
def handshakeSends (spec : EndpointSpec) (k s : String) (t : Nat) : List Ev :=
  (if strIn "private" spec.url then [Ev.send (_get_auth_message k s t)] else []) ++ subSends spec.topics

/-- The full handshake replayed at the start of every successful connection
attempt of an endpoint: the auth frame first when the URL contains the
substring private (built from the credentials the endpoint carries), then
one subscribe frame per topic. -/
def handshakeTrace (spec : EndpointSpec) (t : Nat) : List Ev :=
  (if strIn "private" spec.url then
    match spec.key, spec.secret with
    | some k, some s => [Ev.send (_get_auth_message k s t)]
    | _, _ => []
  else []) ++ subSends spec.topics

/-- Whether an error is one of the two missing-credential errors. -/
def isCredErr : Ev → Bool
  | Ev.err PErr.missingKey => true
  | Ev.err PErr.missingSecret => true
  | _ => false

/-- The formal reading of the no-socket-before-check sentence on a trace:
after any transport connection event, no missing-credential error may
follow.  True of a trace exactly when every credential check happened
before every socket was opened. -/
def noCredErrAfterConnect : List Ev → Bool
  | [] => true
  | Ev.connect _ :: rest => rest.all (fun e => !isCredErr e)
  | _ :: rest => noCredErrAfterConnect rest

/-- The query-string part of the canonical message. -/
def queryStr (params : List (String × String)) : String :=
  joinSep "&" (params.map (fun kv => kv.1 ++ "=" ++ kv.2))

/-- The character list of the query string, in a shape convenient for
induction: key, equals sign, value, and an ampersand before each later
pair. -/
def qchars : List (String × String) → List Char
  | [] => []
  | (k, v) :: rest =>
      k.data ++ '=' :: (v.data ++ (match rest with
        | [] => []
        | _ :: _ => '&' :: qchars rest))

/-- Whether a parameter key avoids the three separator characters of the
canonical message. -/
def keyFree (k : String) : Bool :=
  k.data.all (fun c => !(c == '&') && !(c == '=') && !(c == '|'))

/-- Whether a parameter value avoids the ampersand and pipe separators. -/
def valFree (v : String) : Bool :=
  v.data.all (fun c => !(c == '&') && !(c == '|'))

/-- Whether every key and value of a parameter mapping avoids the separator
characters, the proviso under which the canonical message determines the
parameters. -/
def goodParams (p : List (String × String)) : Bool :=
  p.all (fun kv => keyFree kv.1 && valFree kv.2)

/-- The numeric value of a decimal digit character. -/
def digitVal (c : Char) : Nat := c.toNat - 48

/-- The number denoted by a decimal digit string. -/
def decVal (l : List Char) : Nat := l.foldl (fun acc c => 10 * acc + digitVal c) 0

/-! ## Theorems -/

/-- A ping frame is never enqueued by any run of the receive loop. -/
theorem put_ping_not_mem_recvTrace {obj : J} (hping : isPing obj = true) :
    ∀ frames : List J, Ev.put obj ∉ recvTrace frames := by
  intro frames
  induction frames with
  | nil => simp [recvTrace]
  | cons f rest ih =>
    intro hmem
    simp only [recvTrace] at hmem
    rcases List.mem_append.mp hmem with h1 | h2
    · by_cases hf : isPing f = true
      · simp [hf] at h1
      · simp [hf] at h1
        rw [h1] at hping
        exact hf hping
    · exact ih h2

/-- C2: an inbound frame that decodes to a JSON mapping with event equal to
ping is never placed on the output sequence by the receive loop and
contributes exactly one pong send before the rest of the inbound frames are
processed; every other decoded value is forwarded to the merge queue
unchanged. -/
theorem ping_frames_intercepted (obj : J) (rest : List J) :
    (isPing obj = true →
        recvTrace (obj :: rest) = Ev.send pongFrame :: recvTrace rest
        ∧ ∀ frames : List J, Ev.put obj ∉ recvTrace frames)
    ∧ (isPing obj = false → recvTrace (obj :: rest) = Ev.put obj :: recvTrace rest) := by
  constructor
  · intro hping
    exact ⟨by simp [recvTrace, hping], put_ping_not_mem_recvTrace hping⟩
  · intro hnp
    simp [recvTrace, hnp]

/-- Witness for C2 at the concrete ping frame. -/
theorem ping_frames_intercepted_witness :
    isPing (J.obj [("event", J.str "ping")]) = true
    ∧ recvTrace [J.obj [("event", J.str "ping")]] = [Ev.send pongFrame]
    ∧ Ev.put (J.obj [("event", J.str "ping")]) ∉ recvTrace [J.obj [("event", J.str "ping")]] := by
  have h := (ping_frames_intercepted (J.obj [("event", J.str "ping")]) []).1 rfl
  exact ⟨rfl, h.1, h.2 _⟩

/-- C7: the auth frame is exactly the spec shape, its sign field is the
zero-parameter signature, the zero-parameter canonical message is the pipe
followed by the decimal timestamp, and recomputation with identical inputs
gives an identical signature (the signer is a pure function of its
arguments, so this is definitional in the embedding). -/
theorem auth_frame_correct (k s : String) (t : Nat) :
    _get_auth_message k s t = specAuthFrame k (_get_signature t s []) (natStr t)
    ∧ signMsg [] t = "|" ++ natStr t
    ∧ _get_signature t s [] = sigOfMsg s ("|" ++ natStr t)
    ∧ _get_signature t s [] = _get_signature t s [] :=
  ⟨rfl, rfl, rfl, rfl⟩

/-- C10: within one header set the advertised x-api-timestamp is the
decimal rendering of the very timestamp inside x-api-signature, and within
one auth frame the timestamp field is the decimal rendering of the very
timestamp signed into the sign field. -/
theorem timestamp_signed_is_advertised (k s : String) (p : List (String × String)) (t : Nat) :
    List.lookup "x-api-timestamp" (_get_headers k s p t) = some (natStr t)
    ∧ List.lookup "x-api-signature" (_get_headers k s p t) = some (_get_signature t s (sortPairs p))
    ∧ (jField (_get_auth_message k s t) "params").bind (fun q => jField q "timestamp")
        = some (J.str (natStr t))
    ∧ (jField (_get_auth_message k s t) "params").bind (fun q => jField q "sign")
        = some (J.str (_get_signature t s [])) :=
  ⟨rfl, rfl, rfl, rfl⟩

/-- C1 counterexample: for a private endpoint started without an API key,
the connection attempt opens the transport connection first and only then
raises the missing-credential error, so a credential error does occur after
a socket is opened, refuting the claim that no socket is opened before the
credential-presence check. -/
theorem listener_socket_before_credential_check :
    noCredErrAfterConnect
        (connAttempt ⟨"wss://x/private", ["t1"], none, some "sec"⟩ ⟨0, [], true⟩) = false
    ∧ connAttempt ⟨"wss://x/private", ["t1"], none, some "sec"⟩ ⟨0, [], true⟩
        = [Ev.connect "wss://x/private", Ev.err PErr.missingKey] :=
  ⟨rfl, rfl⟩

/-- C1 (amended): for a private endpoint missing a credential, the error is
raised before any frame is sent and before anything is enqueued for that
endpoint, though only after the transport connection is established: the
attempt trace is the connect event followed immediately by the credential
error and nothing else. -/
theorem missing_credential_before_any_frame (spec : EndpointSpec) (sess : Session)
    (hpriv : strIn "private" spec.url = true)
    (hmiss : spec.key = none ∨ spec.secret = none) :
    (connAttempt spec sess = [Ev.connect spec.url, Ev.err PErr.missingKey]
      ∨ connAttempt spec sess = [Ev.connect spec.url, Ev.err PErr.missingSecret])
    ∧ (connAttempt spec sess).all (fun e => !isSendEv e && !isPutEv e) = true := by
  have htr : connAttempt spec sess = [Ev.connect spec.url, Ev.err PErr.missingKey]
      ∨ connAttempt spec sess = [Ev.connect spec.url, Ev.err PErr.missingSecret] := by
    rcases hmiss with hk | hs
    · left
      simp [connAttempt, hpriv, hk]
    · cases hck : spec.key with
      | none =>
        left
        simp [connAttempt, hpriv, hck]
      | some k =>
        right
        simp [connAttempt, hpriv, hck, hs]
  refine ⟨htr, ?_⟩
  rcases htr with h | h <;> rw [h] <;> rfl

/-- Witness for C1 amended at a concrete private endpoint with no key. -/
theorem missing_credential_before_any_frame_witness :
    (connAttempt ⟨"wss://x/private", [], none, none⟩ ⟨0, [], true⟩
        = [Ev.connect "wss://x/private", Ev.err PErr.missingKey]
      ∨ connAttempt ⟨"wss://x/private", [], none, none⟩ ⟨0, [], true⟩
        = [Ev.connect "wss://x/private", Ev.err PErr.missingSecret])
    ∧ (connAttempt ⟨"wss://x/private", [], none, none⟩ ⟨0, [], true⟩).all
        (fun e => !isSendEv e && !isPutEv e) = true :=
  missing_credential_before_any_frame ⟨"wss://x/private", [], none, none⟩ ⟨0, [], true⟩ rfl
    (Or.inl rfl)

/-- C5: a REST call to a URL containing public carries empty headers; for
any other URL a missing key or secret fails the call with the corresponding
missing-credential error before any request is formed, and with both
credentials present the request carries exactly the four headers, with the
signature computed over all query parameters sorted by key. -/
theorem rest_call_headers (m : Method) (url : String) (key secret : Option String)
    (params : List (String × String)) (t : Nat) :
    (strIn "public" url = true →
        restCall m url key secret params t = Except.ok ⟨m, url, params, []⟩)
    ∧ (strIn "public" url = false → key = none →
        restCall m url key secret params t = Except.error PErr.missingKey)
    ∧ (∀ k, strIn "public" url = false → key = some k → secret = none →
        restCall m url key secret params t = Except.error PErr.missingSecret)
    ∧ (∀ k s, strIn "public" url = false → key = some k → secret = some s →
        restCall m url key secret params t = Except.ok ⟨m, url, params, _get_headers k s params t⟩
        ∧ (_get_headers k s params t).map Prod.fst
            = ["Content-Type", "x-api-key", "x-api-signature", "x-api-timestamp"]
        ∧ List.lookup "x-api-signature" (_get_headers k s params t)
            = some (_get_signature t s (sortPairs params))
        ∧ (sortPairs params).Pairwise (fun a b => a.1 ≤ b.1)
        ∧ (sortPairs params).Perm params) := by
  refine ⟨?_, ?_, ?_, ?_⟩
  · intro hp
    simp [restCall, _headers, hp]
  · intro hp hk
    simp [restCall, _headers, hp, hk]
  · intro k hp hk hs
    simp [restCall, _headers, hp, hk, hs]
  · intro k s hp hk hs
    refine ⟨by simp [restCall, _headers, hp, hk, hs], by simp [_get_headers], rfl, ?_,
      List.perm_insertionSort pairRel params⟩
    exact (List.sorted_insertionSort pairRel params).imp
      (fun hab => by
        rcases hab with h | ⟨h, _⟩
        · exact le_of_lt h
        · exact le_of_eq h)

/-- Witness for C5 at a concrete public URL. -/
theorem rest_call_headers_witness :
    strIn "public" "https://x/public/info" = true
    ∧ restCall Method.get "https://x/public/info" none none [] 0
        = Except.ok ⟨Method.get, "https://x/public/info", [], []⟩ :=
  ⟨rfl, (rest_call_headers Method.get "https://x/public/info" none none [] 0).1 rfl⟩

/-- C6: the REST signature and the full header set are invariant under any
reordering of the input parameter mapping, because the parameters are
sorted by key before the canonical string is built. -/
theorem signature_invariant_under_reordering (key secret : String) (t : Nat)
    (p q : List (String × String)) (hperm : p.Perm q) :
    _get_headers key secret p t = _get_headers key secret q t
    ∧ _get_signature t secret (sortPairs p) = _get_signature t secret (sortPairs q) := by
  have hsort : sortPairs p = sortPairs q :=
    List.eq_of_perm_of_sorted
      ((List.perm_insertionSort pairRel p).trans
        (hperm.trans (List.perm_insertionSort pairRel q).symm))
      (List.sorted_insertionSort pairRel p) (List.sorted_insertionSort pairRel q)
  exact ⟨by simp [_get_headers, sortPairs] at hsort ⊢; rw [hsort], by rw [hsort]⟩

/-- Witness for C6 at a concrete two-element reordering. -/
theorem signature_invariant_under_reordering_witness :
    _get_headers "k" "sec" [("a", "1"), ("b", "2")] 7
        = _get_headers "k" "sec" [("b", "2"), ("a", "1")] 7
    ∧ _get_signature 7 "sec" (sortPairs [("a", "1"), ("b", "2")])
        = _get_signature 7 "sec" (sortPairs [("b", "2"), ("a", "1")]) :=
  signature_invariant_under_reordering "k" "sec" 7 [("a", "1"), ("b", "2")]
    [("b", "2"), ("a", "1")] (by decide)

/-- A connection attempt with both credentials present is the transport
connection, the handshake sends, then the receive loop and the terminating
error. -/
theorem connAttempt_creds (spec : EndpointSpec) (sess : Session) (k s : String)
    (hk : spec.key = some k) (hs : spec.secret = some s) :
    connAttempt spec sess
      = Ev.connect spec.url
          :: (handshakeSends spec k s sess.timeMs
              ++ (recvTrace sess.frames ++ [Ev.err (termEv sess)])) := by
  unfold connAttempt handshakeSends
  by_cases hp : strIn "private" spec.url = true
  · simp [hp, hk, hs]
  · simp [hp, hk, hs]

/-- Subscription frames are never error events. -/
theorem err_not_mem_subSends (topics : List String) (e : PErr) : Ev.err e ∉ subSends topics := by
  intro h
  simp only [subSends, List.mem_map] at h
  obtain ⟨tp, _, habs⟩ := h
  simp at habs

/-- The receive loop emits only pong sends and enqueues, never errors. -/
theorem err_not_mem_recvTrace (frames : List J) (e : PErr) : Ev.err e ∉ recvTrace frames := by
  induction frames with
  | nil => simp [recvTrace]
  | cons f rest ih =>
    intro h
    simp only [recvTrace] at h
    rcases List.mem_append.mp h with h1 | h1
    · by_cases hf : isPing f = true
      · simp [hf] at h1
      · simp [hf] at h1
    · exact ih h1

/-- A connection attempt whose trace contains the ConnectionClosed error
must have passed the credential check (so a private endpoint carried both
credentials) and must have ended with the closed condition. -/
theorem closed_mem_connAttempt {spec : EndpointSpec} {sess : Session}
    (h : Ev.err PErr.connectionClosed ∈ connAttempt spec sess) :
    (strIn "private" spec.url = true → ∃ k s, spec.key = some k ∧ spec.secret = some s)
    ∧ sess.closed = true := by
  have hterm : ∀ hmem : Ev.err PErr.connectionClosed ∈ [Ev.err (termEv sess)],
      sess.closed = true := by
    intro hmem
    rw [List.mem_singleton] at hmem
    injection hmem with h2
    cases hcl : sess.closed with
    | true => rfl
    | false =>
      rw [termEv, hcl] at h2
      simp at h2
  unfold connAttempt at h
  by_cases hp : strIn "private" spec.url = true
  · rw [if_pos hp] at h
    cases hk : spec.key with
    | none =>
      rw [hk] at h
      simp at h
    | some k =>
      rw [hk] at h
      cases hs : spec.secret with
      | none =>
        rw [hs] at h
        simp at h
      | some s =>
        rw [hs] at h
        refine ⟨fun _ => ⟨k, s, rfl, rfl⟩, ?_⟩
        rcases List.mem_cons.mp h with h1 | h1
        · simp at h1
        rcases List.mem_cons.mp h1 with h2 | h2
        · simp at h2
        rcases List.mem_append.mp h2 with h3 | h3
        · rcases List.mem_append.mp h3 with h4 | h4
          · exact absurd h4 (err_not_mem_subSends _ _)
          · exact absurd h4 (err_not_mem_recvTrace _ _)
        · exact hterm h3
  · rw [if_neg hp] at h
    refine ⟨fun hpriv => absurd hpriv hp, ?_⟩
    rcases List.mem_cons.mp h with h1 | h1
    · simp at h1
    rcases List.mem_append.mp h1 with h2 | h2
    · rcases List.mem_append.mp h2 with h3 | h3
      · exact absurd h3 (err_not_mem_subSends _ _)
      · exact absurd h3 (err_not_mem_recvTrace _ _)
    · exact hterm h2

/-- C4: whenever a session of any endpoint ends with the ConnectionClosed
condition, the listener trace continues with a fresh transport connection
and the full handshake (the auth frame first when the endpoint requires
auth, then one subscribe frame per topic) before any further message event,
and the continuation does not depend on the closed session in any way. -/
theorem reconnect_replays_full_handshake (spec : EndpointSpec) (sess next : Session)
    (rest : List Session)
    (hclosed : Ev.err PErr.connectionClosed ∈ connAttempt spec sess) :
    listenerTrace spec (sess :: next :: rest)
      = connAttempt spec sess
          ++ (Ev.connect spec.url
              :: (handshakeTrace spec next.timeMs
                  ++ (recvTrace next.frames ++ [Ev.err (termEv next)])))
          ++ listenerTrace spec rest
    ∧ (handshakeTrace spec next.timeMs).all (fun e => !isPutEv e) = true
    ∧ sess.closed = true := by
  obtain ⟨hcreds, hcl⟩ := closed_mem_connAttempt hclosed
  have hconn : connAttempt spec next
      = Ev.connect spec.url
          :: (handshakeTrace spec next.timeMs
              ++ (recvTrace next.frames ++ [Ev.err (termEv next)])) := by
    by_cases hp : strIn "private" spec.url = true
    · obtain ⟨k, s, hk, hs⟩ := hcreds hp
      rw [connAttempt_creds spec next k s hk hs]
      have hhs : handshakeTrace spec next.timeMs = handshakeSends spec k s next.timeMs := by
        unfold handshakeTrace handshakeSends
        rw [hk, hs]
      rw [hhs]
    · unfold connAttempt handshakeTrace
      rw [if_neg hp, if_neg hp]
      simp [List.append_assoc]
  refine ⟨?_, ?_, hcl⟩
  · simp only [listenerTrace]
    rw [hconn]
    simp [List.append_assoc]
  · unfold handshakeTrace
    by_cases hp : strIn "private" spec.url = true
    · cases hk : spec.key <;> cases hs : spec.secret <;>
        simp [hp, hk, hs, subSends, isPutEv, List.all_map, List.all_append]
    · simp [hp, subSends, isPutEv, List.all_map, List.all_append]

/-- Witness for C4 at the public example endpoint with one topic and no
credentials. -/
theorem reconnect_replays_full_handshake_witness :
    listenerTrace ⟨"wss://x/public", ["T1"], none, none⟩ [⟨1, [], true⟩, ⟨2, [], true⟩]
      = connAttempt ⟨"wss://x/public", ["T1"], none, none⟩ ⟨1, [], true⟩
          ++ (Ev.connect "wss://x/public"
              :: (handshakeTrace ⟨"wss://x/public", ["T1"], none, none⟩ 2
                  ++ (recvTrace [] ++ [Ev.err (termEv ⟨2, [], true⟩)])))
          ++ listenerTrace ⟨"wss://x/public", ["T1"], none, none⟩ []
    ∧ (handshakeTrace ⟨"wss://x/public", ["T1"], none, none⟩ 2).all
        (fun e => !isPutEv e) = true
    ∧ Session.closed ⟨1, [], true⟩ = true :=
  reconnect_replays_full_handshake ⟨"wss://x/public", ["T1"], none, none⟩
    ⟨1, [], true⟩ ⟨2, [], true⟩ []
    (show Ev.err PErr.connectionClosed
        ∈ [Ev.connect "wss://x/public", Ev.send (subscribeFrame "T1"),
           Ev.err PErr.connectionClosed] from
      List.mem_cons_of_mem _ (List.mem_cons_of_mem _ (List.mem_cons_self _ _)))

/-- Subscription frames are never the auth frame. -/
theorem subSends_any_auth (topics : List String) : (subSends topics).any isAuthSend = false := by
  induction topics with
  | nil => rfl
  | cons tp rest ih =>
    simp only [subSends, List.map_cons, List.any_cons]
    rw [show isAuthSend (Ev.send (subscribeFrame tp)) = false from rfl]
    simpa [subSends] using ih

/-- The receive loop never sends the auth frame: it sends only pong replies
and enqueues. -/
theorem recvTrace_any_auth (frames : List J) : (recvTrace frames).any isAuthSend = false := by
  induction frames with
  | nil => rfl
  | cons f rest ih =>
    simp only [recvTrace, List.any_append, ih, Bool.or_false]
    by_cases hf : isPing f = true
    · simp only [hf, if_true]
      rfl
    · simp only [hf, if_false, Bool.false_eq_true]
      rfl

/-- A credentialed connection attempt sends the auth frame exactly when the
URL contains the substring private. -/
theorem connAttempt_any_auth (url : String) (k s : String) (topics : List String)
    (sess : Session) :
    (connAttempt ⟨url, topics, some k, some s⟩ sess).any isAuthSend = strIn "private" url := by
  rw [connAttempt_creds ⟨url, topics, some k, some s⟩ sess k s rfl rfl]
  have h1 : isAuthSend (Ev.connect url) = false := rfl
  have h2 : isAuthSend (Ev.send (_get_auth_message k s sess.timeMs)) = true := rfl
  have h3 : ∀ e, isAuthSend (Ev.err e) = false := fun _ => rfl
  cases hb : strIn "private" url with
  | true =>
    simp [handshakeSends, hb, List.any_append, subSends_any_auth, recvTrace_any_auth, h1, h2, h3]
  | false =>
    simp [handshakeSends, hb, List.any_append, subSends_any_auth, recvTrace_any_auth, h1, h3]

/-- C9: the REST and WebSocket auth conventions are keyed on different
substrings: REST headers are empty exactly when the URL contains public
(credentials or not), the WebSocket handshake sends the auth frame exactly
when the URL contains private, a URL containing neither substring demands
credentials on the REST side yet never triggers the auth frame, and a URL
containing both gets empty REST headers yet performs the auth handshake. -/
theorem rest_ws_auth_conventions_disagree (url : String) (k s : String)
    (params : List (String × String)) (t : Nat) (topics : List String) (sess : Session) :
    (_headers url (some k) (some s) params t = Except.ok [] ↔ strIn "public" url = true)
    ∧ ((connAttempt ⟨url, topics, some k, some s⟩ sess).any isAuthSend = true
        ↔ strIn "private" url = true)
    ∧ (strIn "public" url = false → strIn "private" url = false →
        _headers url none none params t = Except.error PErr.missingKey
        ∧ (connAttempt ⟨url, topics, some k, some s⟩ sess).any isAuthSend = false)
    ∧ (strIn "public" url = true → strIn "private" url = true →
        _headers url (some k) (some s) params t = Except.ok []
        ∧ (connAttempt ⟨url, topics, some k, some s⟩ sess).any isAuthSend = true) := by
  refine ⟨?_, ?_, ?_, ?_⟩
  · constructor
    · intro h
      cases hp : strIn "public" url with
      | true => rfl
      | false => simp [_headers, hp, _get_headers] at h
    · intro hp
      simp [_headers, hp]
  · rw [connAttempt_any_auth url k s topics sess]
  · intro hpub hpriv
    refine ⟨by simp [_headers, hpub], ?_⟩
    rw [connAttempt_any_auth url k s topics sess, hpriv]
  · intro hpub hpriv
    refine ⟨by simp [_headers, hpub], ?_⟩
    rw [connAttempt_any_auth url k s topics sess, hpriv]

/-- Witness for C9 at a URL containing both substrings. -/
theorem rest_ws_auth_conventions_disagree_witness :
    _headers "wss://x/public/private" (some "k") (some "s") [] 0 = Except.ok []
    ∧ (connAttempt ⟨"wss://x/public/private", [], some "k", some "s"⟩ ⟨0, [], true⟩).any
        isAuthSend = true :=
  (rest_ws_auth_conventions_disagree "wss://x/public/private" "k" "s" [] 0 [] ⟨0, [], true⟩).2.2.2
    rfl rfl

/-- Every uppercased hexadecimal digit character below 16 lies in the
uppercase hexadecimal alphabet. -/
theorem hex_upper_mem : ∀ n, n < 16 →
    ("0123456789ABCDEF".data).contains (Char.toUpper (hexDigitChar n)) = true := by
  decide

/-- The uppercased hex rendering of a byte list stays inside the uppercase
hexadecimal alphabet. -/
theorem foldr_hex_upper (bs : List Nat) (hb : ∀ b ∈ bs, b < 256) :
    ((bs.foldr (fun b acc => byteHex b ++ acc) []).map Char.toUpper).all
      (fun c => ("0123456789ABCDEF".data).contains c) = true := by
  induction bs with
  | nil => rfl
  | cons b rest ih =>
    simp only [List.foldr_cons, List.map_append, List.all_append, Bool.and_eq_true]
    refine ⟨?_, ih (fun x hx => hb x (List.mem_cons_of_mem _ hx))⟩
    have hblt : b < 256 := hb b (List.mem_cons_self b rest)
    have h1 := hex_upper_mem (b / 16) (Nat.div_lt_of_lt_mul (by omega))
    have h2 := hex_upper_mem (b % 16) (Nat.mod_lt _ (by norm_num))
    simp only [byteHex, List.map_cons, List.map_nil, List.all_cons, List.all_nil, h1, h2,
      Bool.and_self, Bool.and_true]

/-- Rendering a word list to big-endian bytes yields only genuine bytes. -/
theorem foldr_word4_lt (ws : List Nat) :
    ∀ b ∈ ws.foldr (fun w acc => word4 w ++ acc) [], b < 256 := by
  induction ws with
  | nil => simp
  | cons w rest ih =>
    intro b hb
    simp only [List.foldr_cons] at hb
    rcases List.mem_append.mp hb with h | h
    · simp only [word4, List.mem_cons, List.not_mem_nil, or_false] at h
      rcases h with h | h | h | h <;> subst h <;> omega
    · exact ih b h

/-- Every byte of a SHA-256 digest is below 256. -/
theorem sha256_bytes_lt (msg : List Nat) : ∀ b ∈ sha256 msg, b < 256 := by
  intro b hb
  unfold sha256 at hb
  exact foldr_word4_lt _ b hb

/-- Every byte of an HMAC-SHA256 digest is below 256. -/
theorem hmacSha256_bytes_lt (key msg : List Nat) : ∀ b ∈ hmacSha256 key msg, b < 256 := by
  intro b hb
  unfold hmacSha256 at hb
  exact sha256_bytes_lt _ b hb

/-- The uppercased hexadecimal rendering of a digest of genuine bytes is a
string of uppercase hexadecimal characters. -/
theorem digest_bytes_upper (bs : List Nat) (hb : ∀ b ∈ bs, b < 256) :
    allUpperHex (pyUpper (hexDigest bs)) = true :=
  foldr_hex_upper bs hb

/-- C3: the signer returns the uppercase hexadecimal rendering of the
HMAC-SHA256, keyed by the secret, of the canonical string built from the
parameters and the timestamp exactly as the spec words it, the canonical
string of an empty parameter mapping is the pipe followed by the timestamp,
and the result consists of uppercase hexadecimal characters only. -/
theorem signature_canonical_string (time_ms : Nat) (secret : String)
    (params : List (String × String)) :
    _get_signature time_ms secret params
      = pyUpper (hexDigest (hmacSha256 (utf8Bytes secret)
          (utf8Bytes (specCanonicalString params time_ms))))
    ∧ specCanonicalString [] time_ms = "|" ++ natStr time_ms
    ∧ allUpperHex (_get_signature time_ms secret params) = true := by
  have hcanon : signMsg params time_ms = specCanonicalString params time_ms := by
    cases params with
    | nil => rfl
    | cons p rest => rfl
  refine ⟨?_, rfl, ?_⟩
  · unfold _get_signature sigOfMsg
    rw [hcanon]
  · exact digest_bytes_upper _ (hmacSha256_bytes_lt _ _)

/-- The digit value of a digit character below ten. -/
theorem digitVal_digitChar : ∀ d, d < 10 → digitVal (digitChar d) = d := by
  decide

/-- Appending one digit multiplies the denoted value by ten. -/
theorem decVal_append_digit (xs : List Char) (c : Char) :
    decVal (xs ++ [c]) = 10 * decVal xs + digitVal c := by
  unfold decVal
  rw [List.foldl_append]
  rfl

/-- The decimal rendering round-trips through the denoted value whenever the
fuel exceeds the number. -/
theorem decVal_natCharsAux : ∀ fuel n, n < fuel → decVal (natCharsAux fuel n) = n := by
  intro fuel
  induction fuel with
  | zero => intro n h; exact absurd h (Nat.not_lt_zero n)
  | succ f ih =>
    intro n hn
    by_cases h10 : n < 10
    · simp only [natCharsAux, if_pos h10]
      simpa [decVal] using digitVal_digitChar n h10
    · simp only [natCharsAux, if_neg h10]
      rw [decVal_append_digit]
      have hdiv : n / 10 < f := by
        have h1 : n / 10 < n := Nat.div_lt_self (by omega) (by norm_num)
        omega
      rw [ih (n / 10) hdiv, digitVal_digitChar (n % 10) (Nat.mod_lt _ (by norm_num))]
      omega

/-- The decimal rendering of naturals is injective. -/
theorem natStr_inj {a b : Nat} (h : natStr a = natStr b) : a = b := by
  have hd : natCharsAux (a + 1) a = natCharsAux (b + 1) b := congrArg String.data h
  have ha := decVal_natCharsAux (a + 1) a (Nat.lt_succ_self a)
  have hb := decVal_natCharsAux (b + 1) b (Nat.lt_succ_self b)
  rw [← ha, ← hb, hd]

/-- Every character of the decimal rendering is a digit character. -/
theorem mem_natCharsAux : ∀ fuel n c, c ∈ natCharsAux fuel n → ∃ d, d < 10 ∧ c = digitChar d := by
  intro fuel
  induction fuel with
  | zero => intro n c h; simp [natCharsAux] at h
  | succ f ih =>
    intro n c h
    by_cases h10 : n < 10
    · simp only [natCharsAux, if_pos h10, List.mem_singleton] at h
      exact ⟨n, h10, h⟩
    · simp only [natCharsAux, if_neg h10] at h
      rcases List.mem_append.mp h with h1 | h1
      · exact ih _ c h1
      · rw [List.mem_singleton] at h1
        exact ⟨n % 10, Nat.mod_lt _ (by norm_num), h1⟩

/-- The pipe separator never occurs in a decimal rendering. -/
theorem pipe_not_mem_natCharsAux (fuel n : Nat) : '|' ∉ natCharsAux fuel n := by
  intro h
  rcases mem_natCharsAux fuel n '|' h with ⟨d, hd, he⟩
  have hne : ∀ d, d < 10 → digitChar d ≠ '|' := by decide
  exact hne d hd he.symm

/-- A separator that occurs in neither prefix splits a concatenation
uniquely: equal concatenations force equal prefixes and equal suffixes. -/
theorem append_sep_inj {c : Char} : ∀ (xs₁ : List Char) {ys₁ : List Char} (xs₂ : List Char)
    {ys₂ : List Char}, c ∉ xs₁ → c ∉ xs₂ → xs₁ ++ c :: ys₁ = xs₂ ++ c :: ys₂ →
    xs₁ = xs₂ ∧ ys₁ = ys₂ := by
  intro xs₁
  induction xs₁ with
  | nil =>
    intro ys₁ xs₂ ys₂ h1 h2 heq
    cases xs₂ with
    | nil =>
      injection heq with _ h₂
      exact ⟨rfl, h₂⟩
    | cons x t =>
      injection heq with hx _
      cases hx
      exact absurd (List.mem_cons_self c t) h2
  | cons a t ih =>
    intro ys₁ xs₂ ys₂ h1 h2 heq
    cases xs₂ with
    | nil =>
      injection heq with hx _
      cases hx
      exact absurd (List.mem_cons_self c t) h1
    | cons b u =>
      injection heq with hab htail
      cases hab
      have h1t : c ∉ t := fun hm => h1 (List.mem_cons_of_mem _ hm)
      have h2t : c ∉ u := fun hm => h2 (List.mem_cons_of_mem _ hm)
      rcases ih u h1t h2t htail with ⟨he1, he2⟩
      exact ⟨by rw [he1], he2⟩

/-- Two strings with the same character data are equal. -/
theorem string_data_inj {a b : String} (h : a.data = b.data) : a = b := by
  cases a
  cases b
  simp only at h
  rw [h]

/-- A separator-free key contains no ampersand, equals sign or pipe. -/
theorem keyFree_not_mem {k : String} (h : keyFree k = true) :
    '&' ∉ k.data ∧ '=' ∉ k.data ∧ '|' ∉ k.data := by
  refine ⟨fun hm => ?_, fun hm => ?_, fun hm => ?_⟩ <;>
    · have hall := List.all_eq_true.mp h _ hm
      revert hall
      decide

/-- A separator-free value contains no ampersand or pipe. -/
theorem valFree_not_mem {v : String} (h : valFree v = true) :
    '&' ∉ v.data ∧ '|' ∉ v.data := by
  refine ⟨fun hm => ?_, fun hm => ?_⟩ <;>
    · have hall := List.all_eq_true.mp h _ hm
      revert hall
      decide

/-- Separator-freeness of a cons parameter list, split into its parts. -/
theorem goodParams_cons {k v : String} {rest : List (String × String)}
    (h : goodParams ((k, v) :: rest) = true) :
    keyFree k = true ∧ valFree v = true ∧ goodParams rest = true := by
  simp only [goodParams, List.all_cons, Bool.and_eq_true] at h
  exact ⟨h.1.1, h.1.2, h.2⟩

/-- The pipe separator never occurs in the query characters of a
separator-free parameter list. -/
theorem pipe_not_mem_qchars : ∀ p, goodParams p = true → '|' ∉ qchars p := by
  intro p
  induction p with
  | nil => intro _ h; simp [qchars] at h
  | cons kv rest ih =>
    intro hg hm
    obtain ⟨k, v⟩ := kv
    obtain ⟨hk, hv, hr⟩ := goodParams_cons hg
    simp only [qchars] at hm
    rcases List.mem_append.mp hm with h1 | h1
    · exact (keyFree_not_mem hk).2.2 h1
    · rcases List.mem_cons.mp h1 with h2 | h2
      · exact absurd h2 (by decide)
      · rcases List.mem_append.mp h2 with h3 | h3
        · exact (valFree_not_mem hv).2 h3
        · cases rest with
          | nil => simp at h3
          | cons r rs =>
            rcases List.mem_cons.mp h3 with h4 | h4
            · exact absurd h4 (by decide)
            · exact ih hr h4

/-- The query characters of a separator-free parameter list determine the
parameter list. -/
theorem qchars_inj : ∀ p q, goodParams p = true → goodParams q = true →
    qchars p = qchars q → p = q := by
  intro p
  induction p with
  | nil =>
    intro q hp hq heq
    cases q with
    | nil => rfl
    | cons kv rest =>
      obtain ⟨k, v⟩ := kv
      simp only [qchars] at heq
      have hmem : ('=' : Char) ∈ ([] : List Char) := by
        rw [heq]
        exact List.mem_append_right _ (List.mem_cons_self _ _)
      simp at hmem
  | cons kv rest ih =>
    intro q hp hq heq
    obtain ⟨k, v⟩ := kv
    obtain ⟨hk, hv, hr⟩ := goodParams_cons hp
    cases q with
    | nil =>
      simp only [qchars] at heq
      have hmem : ('=' : Char) ∈ ([] : List Char) := by
        rw [← heq]
        exact List.mem_append_right _ (List.mem_cons_self _ _)
      simp at hmem
    | cons kv2 rest2 =>
      obtain ⟨k2, v2⟩ := kv2
      obtain ⟨hk2, hv2, hr2⟩ := goodParams_cons hq
      simp only [qchars] at heq
      obtain ⟨hkeq, htail⟩ :=
        append_sep_inj k.data k2.data (keyFree_not_mem hk).2.1 (keyFree_not_mem hk2).2.1 heq
      have hkstr : k = k2 := string_data_inj hkeq
      cases rest with
      | nil =>
        cases rest2 with
        | nil =>
          simp only [List.append_nil] at htail
          rw [hkstr, string_data_inj htail]
        | cons r2 rs2 =>
          exfalso
          have hmem : ('&' : Char) ∈ v.data := by
            have hmem2 : ('&' : Char) ∈ v.data ++ ([] : List Char) := by
              rw [htail]
              exact List.mem_append_right _ (List.mem_cons_self _ _)
            simpa using hmem2
          exact (valFree_not_mem hv).1 hmem
      | cons r rs =>
        cases rest2 with
        | nil =>
          exfalso
          have hmem : ('&' : Char) ∈ v2.data := by
            have hmem2 : ('&' : Char) ∈ v2.data ++ ([] : List Char) := by
              rw [← htail]
              exact List.mem_append_right _ (List.mem_cons_self _ _)
            simpa using hmem2
          exact (valFree_not_mem hv2).1 hmem
        | cons r2 rs2 =>
          obtain ⟨hveq, hqeq⟩ :=
            append_sep_inj v.data v2.data (valFree_not_mem hv).1 (valFree_not_mem hv2).1 htail
          rw [hkstr, string_data_inj hveq, ih (r2 :: rs2) hr hr2 hqeq]

/-- The character data of the query string in the inductive shape. -/
theorem queryStr_data (p : List (String × String)) : (queryStr p).data = qchars p := by
  induction p with
  | nil => rfl
  | cons kv rest ih =>
    obtain ⟨k, v⟩ := kv
    cases rest with
    | nil =>
      show (k ++ "=" ++ v).data = _
      simp [String.data_append, qchars]
    | cons r rs =>
      show ((k ++ "=" ++ v) ++ "&" ++ queryStr (r :: rs)).data = _
      simp only [String.data_append, qchars, ih]
      simp [List.append_assoc]

/-- The character data of the canonical message: query characters, the pipe
separator, then the decimal timestamp characters. -/
theorem signMsg_data (p : List (String × String)) (t : Nat) :
    (signMsg p t).data = qchars p ++ '|' :: natCharsAux (t + 1) t := by
  show (queryStr p ++ "|" ++ natStr t).data = _
  simp only [String.data_append, queryStr_data]
  simp [natStr, List.append_assoc]

/-- For separator-free parameters the canonical message determines both the
parameter list and the timestamp. -/
theorem signMsg_inj {p q : List (String × String)} {t u : Nat}
    (hp : goodParams p = true) (hq : goodParams q = true)
    (h : signMsg p t = signMsg q u) : p = q ∧ t = u := by
  have hd : qchars p ++ '|' :: natCharsAux (t + 1) t
      = qchars q ++ '|' :: natCharsAux (u + 1) u := by
    have hdd := congrArg String.data h
    rw [signMsg_data, signMsg_data] at hdd
    exact hdd
  obtain ⟨h1, h2⟩ := append_sep_inj (qchars p) (qchars q)
    (pipe_not_mem_qchars p hp) (pipe_not_mem_qchars q hq) hd
  refine ⟨qchars_inj p q hp hq h1, ?_⟩
  have ht := decVal_natCharsAux (t + 1) t (Nat.lt_succ_self t)
  have hu := decVal_natCharsAux (u + 1) u (Nat.lt_succ_self u)
  rw [← ht, ← hu, h2]

/-- C8 counterexample: two parameter mappings with the same keys but
different values whose signatures coincide, because a value containing the
separator characters collides the canonical strings; this refutes the claim
that changing a value always changes the signature. -/
theorem signature_value_collision :
    _get_signature 1 "s" [("a", "1&b=2"), ("b", "3")]
      = _get_signature 1 "s" [("a", "1"), ("b", "2&b=3")]
    ∧ ([("a", "1&b=2"), ("b", "3")] : List (String × String)).map Prod.fst
        = ([("a", "1"), ("b", "2&b=3")] : List (String × String)).map Prod.fst
    ∧ ([("a", "1&b=2"), ("b", "3")] : List (String × String))
        ≠ [("a", "1"), ("b", "2&b=3")] := by
  refine ⟨?_, rfl, by decide⟩
  have h : signMsg [("a", "1&b=2"), ("b", "3")] 1 = signMsg [("a", "1"), ("b", "2&b=3")] 1 := rfl
  unfold _get_signature
  rw [h]

/-- C8 (amended): the signature factors through the canonical message, and
changing any parameter value or the timestamp changes the canonical message
over which the HMAC is computed, provided keys and values avoid the
separator characters; without that proviso distinct mappings can collide. -/
theorem signature_message_injective (secret : String) (t u : Nat)
    (p q : List (String × String)) (hp : goodParams p = true) (hq : goodParams q = true)
    (hne : p ≠ q ∨ t ≠ u) :
    signMsg p t ≠ signMsg q u
    ∧ _get_signature t secret p = sigOfMsg secret (signMsg p t) := by
  refine ⟨fun h => ?_, rfl⟩
  obtain ⟨h1, h2⟩ := signMsg_inj hp hq h
  rcases hne with hne | hne
  · exact hne h1
  · exact hne h2

/-- Witness for C8 amended at empty parameters and two timestamps. -/
theorem signature_message_injective_witness :
    goodParams ([] : List (String × String)) = true
    ∧ signMsg ([] : List (String × String)) 1 ≠ signMsg ([] : List (String × String)) 2
    ∧ _get_signature 1 "s" [] = sigOfMsg "s" (signMsg [] 1) := by
  have h := signature_message_injective "s" 1 2 [] [] rfl rfl (Or.inr (by decide))
  exact ⟨rfl, h.1, h.2⟩

end Woopy
